import Mathlib

/-!
Shallow embedding of `src/image.rs` from the `qrterm` repository.

The source renders a QR pixel grid to terminal characters: a `Grid` canvas
accumulates dark dots into a flat row-major buffer, and `into_image` pairs
vertically adjacent pixel rows into `Point` cells (two dots per terminal
character), with a trailing `HalfPoint` row when the pixel height is odd.

Rust panics are modelled with `Option`: a function that can panic returns
`none` exactly when the source panics.
-/

/-- A QR dot that can either be white or black (`enum Dot` in the source). -/
inductive Dot where
  | Black : Dot
  | White : Dot
deriving DecidableEq

/-- A rendering character worth of dots: terminal characters are two dots
tall (`struct Point` in the source). -/
structure Point where
  top : Dot
  bot : Dot
deriving DecidableEq

/-- A half point, for an uneven number of rows (`struct HalfPoint(pub Dot)`). -/
structure HalfPoint where
  dot : Dot
deriving DecidableEq

/-- `Point::to_char`: converts a point to a unicode block character. -/
def Point.to_char (p : Point) : Char :=
  match p.top, p.bot with
  | Dot.Black, Dot.Black => '█'
  | Dot.Black, Dot.White => '▀'
  | Dot.White, Dot.Black => '▄'
  | Dot.White, Dot.White => ' '

/-- `HalfPoint::to_char`: converts a half point to a unicode block character. -/
def HalfPoint.to_char (p : HalfPoint) : Char :=
  match p.dot with
  | Dot.Black => '▀'
  | Dot.White => ' '

/-- The image grid used for rendering (`struct Grid`): a flat row-major dot
buffer, the width, and the dot value written by `draw_dark_pixel`. -/
structure Grid where
  dots : List Dot
  width : Nat
  dark : Dot
deriving DecidableEq

/-- The rendered image (`struct Image`): full glyph lines followed by an
optional half line. -/
structure Image where
  lines : List (List Point)
  last_line : Option (List HalfPoint)
deriving DecidableEq

/-- `<Grid as Canvas>::new`: a `width * height` buffer filled with the light
pixel. -/
def Grid.new (width height : Nat) (dark_pixel light_pixel : Dot) : Grid :=
  { dots := List.replicate (width * height) light_pixel
    width := width
    dark := dark_pixel }

/-- `Grid::draw_dark_pixel`: writes the dark value at flat index
`x + y * width`, panicking (`none`) when `x >= width` or the flat index is
outside the buffer. -/
def Grid.draw_dark_pixel (g : Grid) (x y : Nat) : Option Grid :=
  let i := x + y * g.width
  if x ≥ g.width ∨ i ≥ g.dots.length then
    none
  else
    some { g with dots := g.dots.set i g.dark }

/-- `slice::chunks`: splits a list into consecutive chunks of `n` elements,
the last chunk possibly shorter. (Rust panics on `n = 0`; that branch is
unreachable from `into_image`, which returns `none` on zero width first.) -/
def chunks {α : Type} (n : Nat) : List α → List (List α)
  | [] => []
  | a :: rest =>
    if _hn : n = 0 then []
    else (a :: rest).take n :: chunks n ((a :: rest).drop n)
termination_by l => l.length
decreasing_by
  simp only [List.length_drop, List.length_cons]
  omega

/-- The body of the `for line in self.dots.chunks(w * 2)` loop in
`Grid::into_image`: a full chunk is zipped into a line of `Point`s, a short
chunk becomes the half line. -/
def imageStep (w : Nat) (acc : List (List Point) × Option (List HalfPoint))
    (line : List Dot) : List (List Point) × Option (List HalfPoint) :=
  if line.length = w * 2 then
    (acc.1 ++ [((line.take w).zip (line.drop w)).map fun td => Point.mk td.1 td.2], acc.2)
  else
    (acc.1, some (line.map HalfPoint.mk))

/-- `Grid::into_image`. The source computes `let h = self.dots.len() / w;`
before the loop; when `w = 0` this division panics in Rust, modelled as
`none`. Otherwise the loop over `chunks (w * 2)` builds the lines and the
optional last line. -/
def Grid.into_image (g : Grid) : Option Image :=
  if g.width = 0 then
    none
  else
    let r := (chunks (g.width * 2) g.dots).foldl (imageStep g.width) ([], none)
    some { lines := r.1, last_line := r.2 }

/-- `drawAll g ps` runs a sequence of `draw_dark_pixel` calls; `none` when
any call panics. -/
def drawAll (g : Grid) (ps : List (Nat × Nat)) : Option Grid :=
  ps.foldlM (fun g p => g.draw_dark_pixel p.1 p.2) g

/-- The `k`-th full glyph line of a buffer `l` of width `w`: column `x` pairs
the stored dots at row-major indices `x + 2*k*w` and `x + (2*k+1)*w`. -/
def fullRow (w : Nat) (l : List Dot) (k : Nat) : List Point :=
  (List.range w).map fun x =>
    Point.mk (l.getD (x + 2 * k * w) Dot.White) (l.getD (x + (2 * k + 1) * w) Dot.White)

/-- All full glyph lines of a height-`h` buffer: one per complete row pair. -/
def fullRows (w h : Nat) (l : List Dot) : List (List Point) :=
  (List.range (h / 2)).map (fullRow w l)

/-- The half line of a height-`h` buffer: column `x` wraps the stored dot of
the last row, at row-major index `x + (h-1)*w`. -/
def halfRow (w h : Nat) (l : List Dot) : List HalfPoint :=
  (List.range w).map fun x => HalfPoint.mk (l.getD (x + (h - 1) * w) Dot.White)

theorem chunks_nil {α : Type} (n : Nat) : chunks n ([] : List α) = [] := by
  rw [chunks]

theorem chunks_cons {α : Type} {n : Nat} (hn : n ≠ 0) (a : α) (rest : List α) :
    chunks n (a :: rest) = (a :: rest).take n :: chunks n ((a :: rest).drop n) := by
  rw [chunks]
  simp [hn]

theorem chunks_cons_of_ne_nil {α : Type} {n : Nat} (hn : n ≠ 0) {l : List α} (hl : l ≠ []) :
    chunks n l = l.take n :: chunks n (l.drop n) := by
  cases l with
  | nil => exact absurd rfl hl
  | cons a rest => exact chunks_cons hn a rest

theorem map_getD_range {α β : Type} (f : α → β) (d : α) (l : List α) :
    l.map f = (List.range l.length).map fun i => f (l.getD i d) := by
  apply List.ext_getElem?
  intro i
  rw [List.getElem?_map, List.getElem?_map]
  by_cases hi : i < l.length
  · rw [List.getElem?_eq_getElem hi, List.getElem?_eq_getElem (by simpa using hi)]
    simp only [Option.map_some', List.getElem_range]
    rw [List.getD_eq_getElem?_getD, List.getElem?_eq_getElem hi]
    rfl
  · rw [List.getElem?_eq_none (by omega), List.getElem?_eq_none (by simpa using hi)]
    rfl

theorem zip_map_range {β : Type} (f : Dot → Dot → β) (w : Nat) (a b : List Dot)
    (ha : a.length = w) (hb : b.length = w) :
    (a.zip b).map (fun td => f td.1 td.2) =
      (List.range w).map fun x => f (a.getD x Dot.White) (b.getD x Dot.White) := by
  apply List.ext_getElem?
  intro i
  rw [List.getElem?_map, List.getElem?_map]
  by_cases hi : i < w
  · have hz : i < (a.zip b).length := by simp [List.length_zip, ha, hb, hi]
    rw [List.getElem?_eq_getElem hz, List.getElem?_eq_getElem (by simpa using hi)]
    simp only [Option.map_some', List.getElem_range, List.getElem_zip]
    rw [List.getD_eq_getElem?_getD, List.getD_eq_getElem?_getD,
      List.getElem?_eq_getElem (by omega), List.getElem?_eq_getElem (by omega)]
    rfl
  · rw [List.getElem?_eq_none (by simp [List.length_zip, ha, hb]; omega),
      List.getElem?_eq_none (by simpa using hi)]
    rfl

theorem getD_drop (l : List Dot) (n i : Nat) (d : Dot) :
    (l.drop n).getD i d = l.getD (n + i) d := by
  rw [List.getD_eq_getElem?_getD, List.getD_eq_getElem?_getD, List.getElem?_drop]

theorem foldl_imageStep (w : Nat) (hw : 0 < w) :
    ∀ (h : Nat) (l : List Dot), l.length = w * h →
    ∀ (acc : List (List Point)) (last : Option (List HalfPoint)),
    (chunks (w * 2) l).foldl (imageStep w) (acc, last) =
      (acc ++ fullRows w h l, if h % 2 = 1 then some (halfRow w h l) else last) := by
  intro h
  induction h using Nat.strong_induction_on with
  | _ h ih =>
    cases h with
    | zero =>
      intro l hl acc last
      have hnil : l = [] := List.length_eq_zero.mp (by simpa using hl)
      subst hnil
      simp [chunks_nil, fullRows]
    | succ h1 =>
      cases h1 with
      | zero =>
        intro l hl acc last
        have hlen : l.length = w := by simpa using hl
        have hne : l ≠ [] := by
          intro h0
          rw [h0] at hlen
          simp at hlen
          omega
        rw [chunks_cons_of_ne_nil (by omega) hne,
          List.take_of_length_le (by omega), List.drop_eq_nil_of_le (by omega), chunks_nil]
        simp only [List.foldl_cons, List.foldl_nil, imageStep]
        rw [if_neg (by omega)]
        have hmap : l.map HalfPoint.mk =
            (List.range w).map fun i => HalfPoint.mk (l.getD i Dot.White) := by
          rw [map_getD_range HalfPoint.mk Dot.White l, hlen]
        simp [fullRows, halfRow, hmap]
      | succ m =>
        intro l hl acc last
        have hlen : l.length = w * m + w * 2 := by rw [hl]; ring
        have hne : l ≠ [] := by
          intro h0
          rw [h0] at hlen
          simp at hlen
          omega
        have htake : (l.take (w * 2)).length = w * 2 := by
          rw [List.length_take]
          exact Nat.min_eq_left (by omega)
        have hdrop : (l.drop (w * 2)).length = w * m := by
          rw [List.length_drop]
          omega
        rw [chunks_cons_of_ne_nil (by omega) hne]
        simp only [List.foldl_cons, imageStep, htake, if_pos]
        rw [ih m (by omega) (l.drop (w * 2)) hdrop _ last]
        have hd2 : (m + 1 + 1) / 2 = m / 2 + 1 := by omega
        have hm2 : (m + 1 + 1) % 2 = m % 2 := by omega
        simp only [Prod.mk.injEq]
        constructor
        · -- the glyph lines
          rw [List.append_assoc]
          congr 1
          rw [fullRows, fullRows, hd2, List.range_succ_eq_map, List.map_cons, List.map_map,
            List.singleton_append]
          congr 1
          · -- head line: the first chunk zipped into pairs
            have ha : (l.take (w * 2)).take w = l.take w := by
              rw [List.take_take]
              congr 1
              exact Nat.min_eq_left (by omega)
            have hb : (l.take (w * 2)).drop w = (l.drop w).take w := by
              rw [List.drop_take]
              congr 1
              omega
            rw [ha, hb,
              zip_map_range Point.mk w (l.take w) ((l.drop w).take w)
                (by rw [List.length_take]; exact Nat.min_eq_left (by omega))
                (by rw [List.length_take, List.length_drop]; exact Nat.min_eq_left (by omega))]
            rw [fullRow]
            apply List.map_congr_left
            intro x hx
            have hxw : x < w := List.mem_range.mp hx
            have e1 : x + 2 * 0 * w = x := by ring
            have e2 : x + (2 * 0 + 1) * w = w + x := by ring
            rw [e1, e2]
            congr 1
            · rw [List.getD_eq_getElem?_getD, List.getD_eq_getElem?_getD,
                List.getElem?_take, if_pos hxw]
            · rw [List.getD_eq_getElem?_getD, List.getD_eq_getElem?_getD,
                List.getElem?_take, if_pos hxw, List.getElem?_drop]
          · -- remaining lines shift by one row pair
            apply List.map_congr_left
            intro k _
            simp only [Function.comp_apply]
            rw [fullRow, fullRow]
            apply List.map_congr_left
            intro x _
            have e1 : w * 2 + (x + 2 * k * w) = x + 2 * Nat.succ k * w := by
              rw [Nat.succ_eq_add_one]; ring
            have e2 : w * 2 + (x + (2 * k + 1) * w) = x + (2 * Nat.succ k + 1) * w := by
              rw [Nat.succ_eq_add_one]; ring
            rw [getD_drop, getD_drop, e1, e2]
        · -- the half line
          rw [hm2]
          by_cases hm : m % 2 = 1
          · rw [if_pos hm, if_pos hm]
            rw [halfRow, halfRow]
            congr 1
            apply List.map_congr_left
            intro x _
            have e1 : w * 2 + (x + (m - 1) * w) = x + (m + 1 + 1 - 1) * w := by
              obtain ⟨c, rfl⟩ : ∃ c, m = c + 1 := ⟨m - 1, by omega⟩
              simp only [Nat.add_sub_cancel]
              ring
            rw [getD_drop, e1]
          · rw [if_neg hm, if_neg hm]

/-- Closed form of `Grid::into_image` for a buffer of positive width whose
length is `width * h`. -/
theorem into_image_eq (g : Grid) (h : Nat) (hw : 0 < g.width)
    (hl : g.dots.length = g.width * h) :
    g.into_image = some
      { lines := fullRows g.width h g.dots
        last_line := if h % 2 = 1 then some (halfRow g.width h g.dots) else none } := by
  have hw0 : ¬ g.width = 0 := by omega
  simp only [Grid.into_image, hw0, if_false]
  rw [foldl_imageStep g.width hw h g.dots hl [] none]
  simp

theorem index_lt (w h x y : Nat) (hx : x < w) (hy : y < h) : x + y * w < w * h :=
  calc x + y * w < w + y * w := by omega
    _ = (y + 1) * w := by ring
    _ ≤ h * w := Nat.mul_le_mul_right w (by omega)
    _ = w * h := Nat.mul_comm h w

theorem index_ge (w h x y : Nat) (hy : h ≤ y) : w * h ≤ x + y * w :=
  calc w * h = h * w := Nat.mul_comm w h
    _ ≤ y * w := Nat.mul_le_mul_right w hy
    _ ≤ x + y * w := Nat.le_add_left _ _

/-- An in-range `draw_dark_pixel` succeeds and writes exactly one slot. -/
theorem draw_dark_pixel_in_range (g : Grid) (x y h : Nat)
    (hl : g.dots.length = g.width * h) (hx : x < g.width) (hy : y < h) :
    g.draw_dark_pixel x y =
      some { dots := g.dots.set (x + y * g.width) g.dark
             width := g.width
             dark := g.dark } := by
  have hi : x + y * g.width < g.dots.length := by
    rw [hl]; exact index_lt g.width h x y hx hy
  simp only [Grid.draw_dark_pixel]
  rw [if_neg (by omega)]

/-- A successful `drawAll` preserves the grid's width, dark value and buffer
length. -/
theorem drawAll_shape :
    ∀ (ps : List (Nat × Nat)) (g g' : Grid), drawAll g ps = some g' →
    g'.width = g.width ∧ g'.dark = g.dark ∧ g'.dots.length = g.dots.length := by
  intro ps
  induction ps with
  | nil =>
    intro g g' hg
    simp only [drawAll, List.foldlM_nil] at hg
    cases hg
    exact ⟨rfl, rfl, rfl⟩
  | cons p ps ih =>
    intro g g' hg
    rw [drawAll, List.foldlM_cons] at hg
    cases hd : g.draw_dark_pixel p.1 p.2 with
    | none =>
      rw [hd] at hg
      simp at hg
    | some g1 =>
      rw [hd] at hg
      simp only [Option.bind_eq_bind, Option.some_bind] at hg
      have h1 := ih g1 g' hg
      have h0 : g1.width = g.width ∧ g1.dark = g.dark ∧ g1.dots.length = g.dots.length := by
        simp only [Grid.draw_dark_pixel] at hd
        by_cases hc : p.1 ≥ g.width ∨ p.1 + p.2 * g.width ≥ g.dots.length
        · rw [if_pos hc] at hd
          exact absurd hd (by simp)
        · rw [if_neg hc] at hd
          have he := Option.some.inj hd
          refine ⟨?_, ?_, ?_⟩ <;> simp [← he, List.length_set]
      exact ⟨h1.1.trans h0.1, h1.2.1.trans h0.2.1, h1.2.2.trans h0.2.2⟩

theorem getD_replicate_self (n i : Nat) (a : Dot) : (List.replicate n a).getD i a = a := by
  rw [List.getD_eq_getElem?_getD, List.getElem?_replicate]
  by_cases h : i < n <;> simp [h]

/-- Claim C3: `Point::to_char` maps (dark, dark) to the full block '█',
(dark, light) to the upper half block '▀', (light, dark) to the lower half
block '▄', and (light, light) to the blank space ' ', for every cell. -/
theorem c3_point_to_char :
    ∀ t b : Dot, (Point.mk t b).to_char =
      match t, b with
      | Dot.Black, Dot.Black => '█'
      | Dot.Black, Dot.White => '▀'
      | Dot.White, Dot.Black => '▄'
      | Dot.White, Dot.White => ' ' := by
  intro t b
  cases t <;> cases b <;> rfl

/-- Claim C8: `HalfPoint::to_char` maps a dark dot to the upper half block
'▀' and a light dot to the blank space ' '; it never produces the lower
half block '▄'. -/
theorem c8_half_point_to_char :
    ∀ d : Dot,
      (HalfPoint.mk d).to_char = (match d with | Dot.Black => '▀' | Dot.White => ' ') ∧
      (HalfPoint.mk d).to_char ≠ '▄' := by
  intro d
  cases d <;> exact ⟨rfl, by decide⟩

/-- Claim C4 counterexample: a grid of width 0 makes `into_image` fault
(`let h = self.dots.len() / w` divides by zero in the source), instead of
yielding an empty image. -/
theorem c4_zero_width_faults :
    (Grid.new 0 5 Dot.Black Dot.White).into_image = none := rfl

/-- Claim C4 (amended): `into_image` of a zero-width surface faults with a
division-by-zero panic; a zero-height surface of positive width yields the
empty image (no glyph rows, no half-row) without faulting. -/
theorem c4_degenerate_amended (w h : Nat) (d l : Dot) :
    (w = 0 → (Grid.new w h d l).into_image = none) ∧
    (h = 0 → 0 < w → (Grid.new w h d l).into_image =
      some { lines := [], last_line := none }) := by
  constructor
  · intro hw
    subst hw
    simp [Grid.new, Grid.into_image]
  · intro hh hw
    subst hh
    have he := into_image_eq (Grid.new w 0 d l) 0 (by simpa [Grid.new] using hw)
      (by simp [Grid.new])
    simpa [fullRows] using he

theorem c4_degenerate_witness :
    (Grid.new 0 7 Dot.Black Dot.White).into_image = none ∧
    (Grid.new 3 0 Dot.Black Dot.White).into_image =
      some { lines := [], last_line := none } :=
  ⟨(c4_degenerate_amended 0 7 Dot.Black Dot.White).1 rfl,
   (c4_degenerate_amended 3 0 Dot.Black Dot.White).2 rfl (by decide)⟩

/-- Claim C5: on a grid whose buffer length is `width * h`,
`draw_dark_pixel x y` panics exactly when `x ≥ width` or `y ≥ h`; in-range
coordinates never panic.  (A panic aborts before the write, so no stored
pixel is ever changed by a faulting call.) -/
theorem c5_draw_fault_iff (g : Grid) (x y h : Nat)
    (hl : g.dots.length = g.width * h) :
    g.draw_dark_pixel x y = none ↔ g.width ≤ x ∨ h ≤ y := by
  simp only [Grid.draw_dark_pixel]
  by_cases hc : x ≥ g.width ∨ x + y * g.width ≥ g.dots.length
  · rw [if_pos hc]
    constructor
    · intro _
      rcases hc with hx | hi
      · exact Or.inl hx
      · by_cases hx : g.width ≤ x
        · exact Or.inl hx
        · push_neg at hx
          by_cases hy : h ≤ y
          · exact Or.inr hy
          · push_neg at hy
            have hlt := index_lt g.width h x y hx hy
            rw [hl] at hi
            omega
    · intro _
      rfl
  · rw [if_neg hc]
    push_neg at hc
    constructor
    · intro hs
      exact absurd hs (by simp)
    · intro hor
      rcases hor with hx | hy
      · omega
      · have hge := index_ge g.width h x y hy
        rw [hl] at hc
        omega

theorem c5_draw_fault_witness :
    (Grid.new 2 3 Dot.Black Dot.White).dots.length =
      (Grid.new 2 3 Dot.Black Dot.White).width * 3 ∧
    ((Grid.new 2 3 Dot.Black Dot.White).draw_dark_pixel 5 0 = none ↔
      (Grid.new 2 3 Dot.Black Dot.White).width ≤ 5 ∨ 3 ≤ 0) :=
  ⟨by decide, c5_draw_fault_iff (Grid.new 2 3 Dot.Black Dot.White) 5 0 3 (by decide)⟩

/-- Claim C9: an in-range `draw_dark_pixel x y` writes the stored dark value
to the single slot `x + y * width` and leaves every other slot, the width
and the dark field unchanged. -/
theorem c9_draw_frame (g : Grid) (x y h : Nat)
    (hl : g.dots.length = g.width * h) (hx : x < g.width) (hy : y < h) :
    g.draw_dark_pixel x y =
      some { dots := g.dots.set (x + y * g.width) g.dark
             width := g.width
             dark := g.dark } ∧
    (g.dots.set (x + y * g.width) g.dark)[x + y * g.width]? = some g.dark ∧
    ∀ j, j ≠ x + y * g.width →
      (g.dots.set (x + y * g.width) g.dark)[j]? = g.dots[j]? := by
  refine ⟨draw_dark_pixel_in_range g x y h hl hx hy, ?_, ?_⟩
  · rw [List.getElem?_set, if_pos rfl,
      if_pos (by rw [hl]; exact index_lt g.width h x y hx hy)]
  · intro j hj
    rw [List.getElem?_set, if_neg (fun he => hj he.symm)]

theorem c9_draw_frame_witness :
    (⟨[Dot.White, Dot.White], 1, Dot.Black⟩ : Grid).draw_dark_pixel 0 1 =
      some ⟨[Dot.White, Dot.Black], 1, Dot.Black⟩ ∧
    ([Dot.White, Dot.Black] : List Dot)[1]? = some Dot.Black ∧
    ([Dot.White, Dot.Black] : List Dot)[0]? = ([Dot.White, Dot.White] : List Dot)[0]? := by
  have h := c9_draw_frame ⟨[Dot.White, Dot.White], 1, Dot.Black⟩ 0 1 2
    (by decide) (by decide) (by decide)
  exact ⟨h.1, h.2.1, h.2.2 0 (by decide)⟩

/-- Claim C10: `draw_dark_pixel` is idempotent and any two calls commute, so
the final buffer depends only on the set of drawn coordinates, not on their
order or multiplicity.  (Both laws hold even for out-of-range calls, where
every order panics.) -/
theorem c10_idempotent_commute (g : Grid) (x1 y1 x2 y2 : Nat) :
    ((g.draw_dark_pixel x1 y1).bind fun g1 => g1.draw_dark_pixel x1 y1) =
      g.draw_dark_pixel x1 y1 ∧
    ((g.draw_dark_pixel x1 y1).bind fun g1 => g1.draw_dark_pixel x2 y2) =
      ((g.draw_dark_pixel x2 y2).bind fun g1 => g1.draw_dark_pixel x1 y1) := by
  constructor
  · by_cases hc : x1 ≥ g.width ∨ x1 + y1 * g.width ≥ g.dots.length
    · simp only [Grid.draw_dark_pixel, if_pos hc, Option.none_bind]
    · simp only [Grid.draw_dark_pixel, if_neg hc, Option.some_bind]
      rw [if_neg (by simpa [List.length_set] using hc), List.set_set]
  · by_cases hc1 : x1 ≥ g.width ∨ x1 + y1 * g.width ≥ g.dots.length
    · by_cases hc2 : x2 ≥ g.width ∨ x2 + y2 * g.width ≥ g.dots.length
      · simp only [Grid.draw_dark_pixel, if_pos hc1, if_pos hc2, Option.none_bind]
      · simp only [Grid.draw_dark_pixel, if_pos hc1, if_neg hc2, Option.none_bind,
          Option.some_bind]
        rw [if_pos (by simpa [List.length_set] using hc1)]
    · by_cases hc2 : x2 ≥ g.width ∨ x2 + y2 * g.width ≥ g.dots.length
      · simp only [Grid.draw_dark_pixel, if_neg hc1, if_pos hc2, Option.some_bind,
          Option.none_bind]
        rw [if_pos (by simpa [List.length_set] using hc2)]
      · simp only [Grid.draw_dark_pixel, if_neg hc1, if_neg hc2, Option.some_bind]
        rw [if_neg (by simpa [List.length_set] using hc2),
          if_neg (by simpa [List.length_set] using hc1)]
        by_cases hi : x1 + y1 * g.width = x2 + y2 * g.width
        · rw [hi, List.set_set]
        · rw [List.set_comm g.dark g.dark g.dots hi]

/-- Claim C1: for a positive-width grid built by `new` and any sequence of
in-range `draw_dark_pixel` calls, `into_image` yields exactly `h / 2` full
glyph rows, in increasing row-pair order: row `k`, column `x` is the `Point`
whose top is the stored pixel of coordinate `(x, 2k)` (slot `x + 2*k*w`) and
whose bot is the stored pixel of coordinate `(x, 2k+1)` (slot
`x + (2*k+1)*w`). -/
theorem c1_row_pairing (w h : Nat) (d l : Dot) (ps : List (Nat × Nat)) (g : Grid)
    (hw : 0 < w) (hg : drawAll (Grid.new w h d l) ps = some g) :
    g.into_image.isSome = true ∧
    ∀ img, g.into_image = some img →
      img.lines.length = h / 2 ∧
      ∀ k x, k < h / 2 → x < w →
        (img.lines.getD k []).getD x (Point.mk Dot.White Dot.White) =
          Point.mk (g.dots.getD (x + 2 * k * w) Dot.White)
                   (g.dots.getD (x + (2 * k + 1) * w) Dot.White) := by
  have hs := drawAll_shape ps (Grid.new w h d l) g hg
  have hgw : g.width = w := by simpa [Grid.new] using hs.1
  have hgl : g.dots.length = w * h := by simpa [Grid.new] using hs.2.2
  have himg := into_image_eq g h (by omega) (by rw [hgw]; exact hgl)
  rw [hgw] at himg
  refine ⟨by rw [himg]; rfl, ?_⟩
  intro img him
  rw [himg] at him
  cases Option.some.inj him
  constructor
  · simp [fullRows]
  · intro k x hk hx
    have h1 : (fullRows w h g.dots).getD k [] = fullRow w g.dots k := by
      rw [fullRows, List.getD_eq_getElem?_getD, List.getElem?_map,
        List.getElem?_eq_getElem (by simpa using hk)]
      simp
    rw [h1, fullRow, List.getD_eq_getElem?_getD, List.getElem?_map,
      List.getElem?_eq_getElem (by simpa using hx)]
    simp

theorem c1_row_pairing_witness :
    drawAll (Grid.new 2 3 Dot.Black Dot.White) [(0, 0), (1, 2)] =
      some ⟨[Dot.Black, Dot.White, Dot.White, Dot.White, Dot.White, Dot.Black],
        2, Dot.Black⟩ ∧
    (⟨[Dot.Black, Dot.White, Dot.White, Dot.White, Dot.White, Dot.Black],
        2, Dot.Black⟩ : Grid).into_image.isSome = true ∧
    ([[Point.mk Dot.Black Dot.White, Point.mk Dot.White Dot.White]] : List (List Point)).length
      = 3 / 2 ∧
    (([[Point.mk Dot.Black Dot.White, Point.mk Dot.White Dot.White]].getD 0 []).getD 0
        (Point.mk Dot.White Dot.White) =
      Point.mk
        (([Dot.Black, Dot.White, Dot.White, Dot.White, Dot.White, Dot.Black] : List Dot).getD
          (0 + 2 * 0 * 2) Dot.White)
        (([Dot.Black, Dot.White, Dot.White, Dot.White, Dot.White, Dot.Black] : List Dot).getD
          (0 + (2 * 0 + 1) * 2) Dot.White)) := by
  have hd : drawAll (Grid.new 2 3 Dot.Black Dot.White) [(0, 0), (1, 2)] =
      some ⟨[Dot.Black, Dot.White, Dot.White, Dot.White, Dot.White, Dot.Black],
        2, Dot.Black⟩ := by decide
  have h := c1_row_pairing 2 3 Dot.Black Dot.White [(0, 0), (1, 2)] _ (by decide) hd
  have himg : (⟨[Dot.Black, Dot.White, Dot.White, Dot.White, Dot.White, Dot.Black],
      2, Dot.Black⟩ : Grid).into_image =
      some ⟨[[Point.mk Dot.Black Dot.White, Point.mk Dot.White Dot.White]],
        some [HalfPoint.mk Dot.White, HalfPoint.mk Dot.Black]⟩ := by
    rw [into_image_eq _ 3 (by decide) (by decide)]
    decide
  have h2 := h.2 _ himg
  exact ⟨hd, h.1, h2.1, h2.2 0 0 (by decide) (by decide)⟩

/-- Claim C2: for a positive-width grid built by `new` and any sequence of
in-range `draw_dark_pixel` calls, `into_image` has a half-row exactly when
`h` is odd; when present it has `w` entries and entry `x` is the `HalfPoint`
wrapping the stored pixel of coordinate `(x, h-1)` (slot `x + (h-1)*w`), and
it sits in the `last_line` field, rendered after all full rows. -/
theorem c2_half_row (w h : Nat) (d l : Dot) (ps : List (Nat × Nat)) (g : Grid)
    (hw : 0 < w) (hg : drawAll (Grid.new w h d l) ps = some g) :
    g.into_image.isSome = true ∧
    ∀ img, g.into_image = some img →
      (img.last_line.isSome = true ↔ h % 2 = 1) ∧
      ∀ hrow, img.last_line = some hrow →
        hrow.length = w ∧
        ∀ x, x < w →
          hrow.getD x (HalfPoint.mk Dot.White) =
            HalfPoint.mk (g.dots.getD (x + (h - 1) * w) Dot.White) := by
  have hs := drawAll_shape ps (Grid.new w h d l) g hg
  have hgw : g.width = w := by simpa [Grid.new] using hs.1
  have hgl : g.dots.length = w * h := by simpa [Grid.new] using hs.2.2
  have himg := into_image_eq g h (by omega) (by rw [hgw]; exact hgl)
  rw [hgw] at himg
  refine ⟨by rw [himg]; rfl, ?_⟩
  intro img him
  rw [himg] at him
  cases Option.some.inj him
  constructor
  · by_cases hm : h % 2 = 1
    · simp [hm]
    · simp [hm]
  · intro hrow hr
    by_cases hm : h % 2 = 1
    · rw [if_pos hm] at hr
      cases Option.some.inj hr
      constructor
      · simp [halfRow]
      · intro x hx
        rw [halfRow, List.getD_eq_getElem?_getD, List.getElem?_map,
          List.getElem?_eq_getElem (by simpa using hx)]
        simp
    · rw [if_neg hm] at hr
      exact absurd hr (by simp)

theorem c2_half_row_witness :
    drawAll (Grid.new 1 3 Dot.Black Dot.White) [(0, 2)] =
      some ⟨[Dot.White, Dot.White, Dot.Black], 1, Dot.Black⟩ ∧
    (⟨[Dot.White, Dot.White, Dot.Black], 1, Dot.Black⟩ : Grid).into_image.isSome = true ∧
    (((some [HalfPoint.mk Dot.Black] : Option (List HalfPoint)).isSome = true ↔ 3 % 2 = 1) ∧
      ([HalfPoint.mk Dot.Black] : List HalfPoint).length = 1 ∧
      ([HalfPoint.mk Dot.Black] : List HalfPoint).getD 0 (HalfPoint.mk Dot.White) =
        HalfPoint.mk
          (([Dot.White, Dot.White, Dot.Black] : List Dot).getD (0 + (3 - 1) * 1) Dot.White)) := by
  have hd : drawAll (Grid.new 1 3 Dot.Black Dot.White) [(0, 2)] =
      some ⟨[Dot.White, Dot.White, Dot.Black], 1, Dot.Black⟩ := by decide
  have h := c2_half_row 1 3 Dot.Black Dot.White [(0, 2)] _ (by decide) hd
  have himg : (⟨[Dot.White, Dot.White, Dot.Black], 1, Dot.Black⟩ : Grid).into_image =
      some ⟨[[Point.mk Dot.White Dot.White]], some [HalfPoint.mk Dot.Black]⟩ := by
    rw [into_image_eq _ 3 (by decide) (by decide)]
    decide
  have h2 := h.2 _ himg
  have h3 := h2.2 [HalfPoint.mk Dot.Black] rfl
  exact ⟨hd, h.1, h2.1, h3.1, h3.2 0 (by decide)⟩

/-- Claim C6: whenever `into_image` produces an image from a buffer of
length `width * h`, twice the number of full glyph rows plus one for a
present half-row recovers the pixel height `h`. -/
theorem c6_shape_invariant (g : Grid) (h : Nat)
    (hl : g.dots.length = g.width * h) :
    ∀ img, g.into_image = some img →
      img.lines.length * 2 + (if img.last_line.isSome = true then 1 else 0) = h := by
  intro img him
  by_cases hw : g.width = 0
  · rw [Grid.into_image, if_pos hw] at him
    exact absurd him (by simp)
  · have he := into_image_eq g h (by omega) hl
    rw [he] at him
    cases Option.some.inj him
    by_cases hm : h % 2 = 1
    · simp only [if_pos hm]
      simp [fullRows]
      omega
    · simp only [if_neg hm]
      simp [fullRows]
      omega

theorem c6_shape_invariant_witness :
    (Grid.new 2 5 Dot.Black Dot.White).dots.length =
      (Grid.new 2 5 Dot.Black Dot.White).width * 5 ∧
    ([[Point.mk Dot.White Dot.White, Point.mk Dot.White Dot.White],
      [Point.mk Dot.White Dot.White, Point.mk Dot.White Dot.White]] : List (List Point)).length
        * 2 +
      (if (some [HalfPoint.mk Dot.White, HalfPoint.mk Dot.White] :
          Option (List HalfPoint)).isSome = true then 1 else 0) = 5 := by
  have himg : (Grid.new 2 5 Dot.Black Dot.White).into_image =
      some ⟨[[Point.mk Dot.White Dot.White, Point.mk Dot.White Dot.White],
        [Point.mk Dot.White Dot.White, Point.mk Dot.White Dot.White]],
        some [HalfPoint.mk Dot.White, HalfPoint.mk Dot.White]⟩ := by
    rw [into_image_eq _ 5 (by decide) (by decide)]
    decide
  exact ⟨by decide, c6_shape_invariant (Grid.new 2 5 Dot.Black Dot.White) 5 (by decide) _ himg⟩

/-- Claim C7: a freshly created all-light surface of positive width and
height converts to exactly `h / 2` full rows of `w` blank (light, light)
cells each, plus a half-row of `w` blank light cells exactly when `h` is
odd. -/
theorem c7_fresh_surface (w h : Nat) (d : Dot) (hw : 0 < w) (_hh : 0 < h) :
    (Grid.new w h d Dot.White).into_image.isSome = true ∧
    ∀ img, (Grid.new w h d Dot.White).into_image = some img →
      img.lines.length = h / 2 ∧
      (∀ line, line ∈ img.lines → line.length = w ∧
        ∀ p, p ∈ line → p = Point.mk Dot.White Dot.White ∧ p.to_char = ' ') ∧
      (img.last_line.isSome = true ↔ h % 2 = 1) ∧
      ∀ hrow, img.last_line = some hrow → hrow.length = w ∧
        ∀ q, q ∈ hrow → q = HalfPoint.mk Dot.White ∧ q.to_char = ' ' := by
  have himg := into_image_eq (Grid.new w h d Dot.White) h
    (by simpa [Grid.new] using hw) (by simp [Grid.new])
  have hgw : (Grid.new w h d Dot.White).width = w := rfl
  rw [hgw] at himg
  refine ⟨by rw [himg]; rfl, ?_⟩
  intro img him
  rw [himg] at him
  cases Option.some.inj him
  refine ⟨by simp [fullRows], ?_, ?_, ?_⟩
  · intro line hline
    rw [fullRows] at hline
    obtain ⟨k, _, hline⟩ := List.mem_map.mp hline
    subst hline
    constructor
    · simp [fullRow]
    · intro p hp
      obtain ⟨x, _, hp⟩ := List.mem_map.mp hp
      subst hp
      simp only [Grid.new]
      rw [getD_replicate_self, getD_replicate_self]
      exact ⟨rfl, rfl⟩
  · by_cases hm : h % 2 = 1
    · simp [hm]
    · simp [hm]
  · intro hrow hr
    by_cases hm : h % 2 = 1
    · rw [if_pos hm] at hr
      cases Option.some.inj hr
      constructor
      · simp [halfRow]
      · intro q hq
        rw [halfRow] at hq
        obtain ⟨x, _, hq⟩ := List.mem_map.mp hq
        subst hq
        simp only [Grid.new]
        rw [getD_replicate_self]
        exact ⟨rfl, rfl⟩
    · rw [if_neg hm] at hr
      exact absurd hr (by simp)

theorem c7_fresh_surface_witness :
    (Grid.new 1 1 Dot.Black Dot.White).into_image.isSome = true ∧
    ([] : List (List Point)).length = 1 / 2 ∧
    ([HalfPoint.mk Dot.White] : List HalfPoint).length = 1 ∧
    (HalfPoint.mk Dot.White = HalfPoint.mk Dot.White ∧
      (HalfPoint.mk Dot.White).to_char = ' ') := by
  have h := c7_fresh_surface 1 1 Dot.Black (by decide) (by decide)
  have himg : (Grid.new 1 1 Dot.Black Dot.White).into_image =
      some ⟨[], some [HalfPoint.mk Dot.White]⟩ := by
    rw [into_image_eq _ 1 (by decide) (by decide)]
    decide
  have h2 := h.2 _ himg
  have h3 := h2.2.2.2 [HalfPoint.mk Dot.White] rfl
  exact ⟨h.1, h2.1, h3.1, h3.2 (HalfPoint.mk Dot.White) (by simp)⟩
